/-
Verification of the near-Earth-object database (`src/models.py`,
`src/database.py`) against its natural-language specification.

The Python code is shallowly embedded: Python scalar values that the code
inspects dynamically (truthiness, `isinstance` checks) are modelled by the
`PyVal` sum type, Python floats by `PFloat` (a NaN sentinel or a rational
payload — no float arithmetic occurs in the verified code, only type tests,
truthiness and equality), and the mutable object graph built by
`NEODatabase.__init__` by an arena: the database owns the two lists, and the
cross-references (`CloseApproach.neo`, `NearEarthObject.approaches`) are
indices into them, exactly the reimplementation the spec itself proposes in
its design notes for the reference cycle.
-/
import Mathlib

namespace NEO

/-- A Python float: either the NaN sentinel or an actual numeric value
(modelled as a rational — the code never does arithmetic on these, it only
stores them, type-tests them and compares truthiness). -/
inductive PFloat where
  | nan : PFloat
  | val : ℚ → PFloat
deriving DecidableEq

/-- The dynamically-typed Python values the embedded code stores or inspects:
`none` is Python's `None` (also the result of a missing `info.get` key). -/
inductive PyVal where
  | none : PyVal
  | bool : Bool → PyVal
  | int : Int → PyVal
  | float : PFloat → PyVal
  | str : String → PyVal
deriving DecidableEq

/-- Python truthiness (`if x:`): `None`, `False`, zero numbers and the empty
string are falsy; NaN is truthy. -/
def PyVal.truthy : PyVal → Bool
  | .none => false
  | .bool b => b
  | .int n => decide (n ≠ 0)
  | .float .nan => true
  | .float (.val q) => decide (q ≠ 0)
  | .str s => decide (s ≠ "")

/-- Python's `isinstance(x, float)`. -/
def PyVal.isFloat : PyVal → Bool
  | .float _ => true
  | _ => false

/-- Truthiness of an optional string field (`if neo.name`): present and
non-empty. -/
def nameTruthy : Option String → Bool
  | Option.none => false
  | some s => decide (s ≠ "")

/-- The keyword arguments `NearEarthObject.__init__` reads with `info.get`:
a missing key is `Option.none` for the string fields and `PyVal.none` for the
dynamically-typed ones (which is exactly what `info.get` returns). -/
structure NEOInfo where
  designation : Option String
  name : Option String
  diameter : PyVal
  hazardous : PyVal
deriving DecidableEq

/-- A constructed `NearEarthObject`: `approaches` holds arena indices of the
linked `CloseApproach` records (the spec's proposed index-based back link). -/
structure NearEarthObject where
  designation : Option String
  name : Option String
  diameter : PyVal
  hazardous : PyVal
  approaches : List ℕ
deriving DecidableEq

/-- `NearEarthObject.__init__`: copy the fields from `info`, replace a falsy
diameter (`if not self.diameter:`) by `float("nan")`, start with an empty
approach list. -/
def mkNearEarthObject (info : NEOInfo) : NearEarthObject :=
  { designation := info.designation
    name := info.name
    diameter := if info.diameter.truthy then info.diameter else .float .nan
    hazardous := info.hazardous
    approaches := [] }

/-- Modelled from the spec: `cd_to_datetime` lives in `helpers.py`, which is
not among the provided sources. The spec only requires the calendar-date
string to be turned into a timestamp value carrying the same instant, so the
timestamp is modelled abstractly as the parsed calendar string. -/
structure PyDatetime where
  calendar : String
deriving DecidableEq

/-- Modelled from the spec: the conversion itself (see `PyDatetime`). -/
def cd_to_datetime (s : String) : PyDatetime := ⟨s⟩

/-- The `time` attribute of a `CloseApproach` after construction: `None`,
the raw (falsy, i.e. empty) string left unconverted by `if self.time:`, or a
converted datetime. -/
inductive TimeVal where
  | none : TimeVal
  | raw : String → TimeVal
  | dt : PyDatetime → TimeVal
deriving DecidableEq

/-- The keyword arguments `CloseApproach.__init__` reads. For `distance` and
`velocity` the code uses `info.get(key, float("nan"))`, so `Option.none`
marks a missing key (triggering the NaN default); a present key holds an
arbitrary dynamically-typed value. `neo` is an arena index when supplied. -/
structure ApproachInfo where
  designation : Option String
  time : Option String
  distance : Option PyVal
  velocity : Option PyVal
  neo : Option ℕ
deriving DecidableEq

/-- A constructed `CloseApproach` (fields as stored by `__init__`). -/
structure CloseApproach where
  _designation : Option String
  time : TimeVal
  distance : PyVal
  velocity : PyVal
  neo : Option ℕ
deriving DecidableEq

/-- `CloseApproach.__init__`. The two `assert isinstance(..., float)`
statements become `Except.error` outcomes (an `AssertionError` propagating
out of the constructor); everything before them succeeds. -/
def mkCloseApproach (info : ApproachInfo) : Except String CloseApproach :=
  let time : TimeVal :=
    match info.time with
    | Option.none => .none
    | some s => if s = "" then .raw s else .dt (cd_to_datetime s)
  let distance : PyVal := info.distance.getD (.float .nan)
  let velocity : PyVal := info.velocity.getD (.float .nan)
  if !distance.isFloat then .error "Distance must be a float object"
  else if !velocity.isFloat then .error "Velocity must be a float object"
  else .ok { _designation := info.designation, time := time, distance := distance,
             velocity := velocity, neo := info.neo }

/-- Index of the entry a Python dict comprehension over `xs` leaves for a
given key: later entries overwrite earlier ones, so it is the LAST index
whose element matches the key predicate `p` (and `Option.none` for a missing
key, as `dict.get` returns `None`). -/
def dictFindIdx (p : α → Bool) : List α → Option ℕ
  | [] => Option.none
  | x :: xs =>
    match dictFindIdx p xs with
    | some j => some (j + 1)
    | Option.none => if p x then some 0 else Option.none

/-- The database: the two collections handed to `NEODatabase.__init__`, as an
arena. The two lookup dicts built in `__init__` (`_neo_designations`,
`_neo_names`) map keys to the NEO objects of `_neos`; since linking never
changes a designation or a name, looking a key up after construction is the
same as indexing `neos` by the last position whose designation (resp. truthy
name) equals the key, which is how the lookups below are expressed. -/
structure NEODatabase where
  neos : List NearEarthObject
  approaches : List CloseApproach
deriving DecidableEq

/-- The `_neo_designations` dict built in `__init__`
(`{neo.designation: neo for neo in neos}`), as a key → arena-index map. -/
def neoDesignationIdx (neos : List NearEarthObject) (d : Option String) : Option ℕ :=
  dictFindIdx (fun neo => decide (neo.designation = d)) neos

/-- The `_neo_names` dict built in `__init__`
(`{neo.name: neo for neo in neos if neo.name}`): only NEOs with a truthy
name are entered. -/
def neoNameIdx (neos : List NearEarthObject) (n : Option String) : Option ℕ :=
  dictFindIdx (fun neo => nameTruthy neo.name && decide (neo.name = n)) neos

/-- One iteration of the linking loop in `__init__` for the approach at arena
index `i`: resolve its designation through the (pre-built) designation dict
`idx`; if an NEO is found (`if neo:` — an NEO object is always truthy, so
this is exactly "the dict lookup did not return None"), set `approach.neo`
and append the approach to that NEO's list. -/
def linkApproach (idx : Option String → Option ℕ) (db : NEODatabase) (i : ℕ) :
    NEODatabase :=
  match db.approaches.get? i with
  | Option.none => db
  | some a =>
    match idx a._designation with
    | Option.none => db
    | some j =>
      { neos := db.neos.modify (fun neo => { neo with approaches := neo.approaches ++ [i] }) j
        approaches := db.approaches.set i { a with neo := some j } }

/-- The linking loop (`for approach in self._approaches:`), over a list of
arena indices. -/
def linkAll (idx : Option String → Option ℕ) (db : NEODatabase) : List ℕ → NEODatabase
  | [] => db
  | i :: rest => linkAll idx (linkApproach idx db i) rest

/-- `NEODatabase.__init__`: store the two collections, build the dicts (the
designation dict is built from the input `neos` before the loop and is what
the loop consults), then run the linking loop over every approach in order. -/
def mkNEODatabase (neos : List NearEarthObject) (approaches : List CloseApproach) :
    NEODatabase :=
  linkAll (neoDesignationIdx neos) { neos := neos, approaches := approaches }
    (List.range approaches.length)

/-- `NEODatabase.get_neo_by_designation`: `self._neo_designations.get(designation)`
— the dict's value is an object of the arena, so the lookup dereferences the
found index into the (post-linking) arena. -/
def NEODatabase.get_neo_by_designation (db : NEODatabase) (d : Option String) :
    Option NearEarthObject :=
  (neoDesignationIdx db.neos d).bind db.neos.get?

/-- `NEODatabase.get_neo_by_name`: `self._neo_names.get(name)`. -/
def NEODatabase.get_neo_by_name (db : NEODatabase) (n : Option String) :
    Option NearEarthObject :=
  (neoNameIdx db.neos n).bind db.neos.get?

/-- `NEODatabase.query`: the source's body is the placeholder
`for approach in self._approaches: yield approach` — it yields every stored
approach in storage order and never consults `filters`. -/
def NEODatabase.query (db : NEODatabase) (filters : List (CloseApproach → Bool)) :
    List CloseApproach :=
  db.approaches

/-- The fields of a `CloseApproach` that `__init__` sets and linking never
touches (everything except the `neo` back-reference). -/
def CloseApproach.core (a : CloseApproach) :
    Option String × TimeVal × PyVal × PyVal :=
  (a._designation, a.time, a.distance, a.velocity)

/-- The fields of a `NearEarthObject` that linking never touches (everything
except the `approaches` list). -/
def NearEarthObject.core (n : NearEarthObject) :
    Option String × Option String × PyVal × PyVal :=
  (n.designation, n.name, n.diameter, n.hazardous)

/-! ### Lemmas about dict lookups -/

theorem dictFindIdx_eq_none {p : α → Bool} {xs : List α}
    (h : ∀ x ∈ xs, p x = false) : dictFindIdx p xs = Option.none := by
  induction xs with
  | nil => rfl
  | cons x xs ih =>
    have hx := h x (List.mem_cons_self _ _)
    have hxs := ih (fun y hy => h y (List.mem_cons_of_mem _ hy))
    simp [dictFindIdx, hxs, hx]

theorem dictFindIdx_some {p : α → Bool} {xs : List α} {k : ℕ}
    (h : dictFindIdx p xs = some k) : ∃ x, xs[k]? = some x ∧ p x = true := by
  induction xs generalizing k with
  | nil => exact absurd h (by simp [dictFindIdx])
  | cons x xs ih =>
    rw [dictFindIdx] at h
    cases hrec : dictFindIdx p xs with
    | none =>
      rw [hrec] at h
      by_cases hp : p x
      · simp [hp] at h
        exact ⟨x, by simp [← h], hp⟩
      · simp [hp] at h
    | some j =>
      rw [hrec] at h
      simp at h
      obtain ⟨y, hy, hpy⟩ := ih hrec
      exact ⟨y, by rw [← h]; simpa using hy, hpy⟩

theorem dictFindIdx_ne_none {p : α → Bool} {xs : List α} {j : ℕ} {x : α}
    (hj : xs[j]? = some x) (hp : p x = true) : dictFindIdx p xs ≠ Option.none := by
  induction xs generalizing j with
  | nil => simp at hj
  | cons y ys ih =>
    rw [dictFindIdx]
    cases hrec : dictFindIdx p ys with
    | some j' => simp
    | none =>
      cases j with
      | zero =>
        simp at hj
        subst hj
        simp [hp]
      | succ j =>
        simp at hj
        exact absurd hrec (ih hj)

theorem dictFindIdx_congr {p : α → Bool} {q : β → Bool} {xs : List α} {ys : List β}
    (h : ∀ k : ℕ, xs[k]?.map p = ys[k]?.map q) :
    dictFindIdx p xs = dictFindIdx q ys := by
  induction xs generalizing ys with
  | nil =>
    cases ys with
    | nil => rfl
    | cons y ys => exact absurd (h 0) (by simp)
  | cons x xs ih =>
    cases ys with
    | nil => exact absurd (h 0) (by simp)
    | cons y ys =>
      have h0 : p x = q y := by simpa using h 0
      have ht : ∀ k : ℕ, xs[k]?.map p = ys[k]?.map q := fun k => by
        simpa using h (k + 1)
      rw [dictFindIdx, dictFindIdx, ih ht, h0]

/-! ### Frame and step lemmas for one linking iteration -/

/-- The designation resolution the linking loop performs for arena index `i`. -/
def resolveDesig (idx : Option String → Option ℕ) (db : NEODatabase) (i : ℕ) :
    Option ℕ :=
  (db.approaches.get? i).bind (fun a => idx a._designation)

theorem linkApproach_neos_length (idx : Option String → Option ℕ)
    (db : NEODatabase) (i : ℕ) :
    (linkApproach idx db i).neos.length = db.neos.length := by
  simp only [linkApproach]
  split
  · rfl
  · split
    · rfl
    · simp [List.length_modify]

theorem linkApproach_approaches_length (idx : Option String → Option ℕ)
    (db : NEODatabase) (i : ℕ) :
    (linkApproach idx db i).approaches.length = db.approaches.length := by
  simp only [linkApproach]
  split
  · rfl
  · split
    · rfl
    · simp

theorem linkApproach_approach_core (idx : Option String → Option ℕ)
    (db : NEODatabase) (i k : ℕ) :
    ((linkApproach idx db i).approaches[k]?).map CloseApproach.core =
      (db.approaches[k]?).map CloseApproach.core := by
  simp only [linkApproach]
  split
  · rfl
  next a ha =>
    split
    · rfl
    next j hj =>
      by_cases hk : i = k
      · subst hk
        rw [List.get?_eq_getElem?] at ha
        simp [List.getElem?_set_self', ha, CloseApproach.core]
      · simp [List.getElem?_set_ne hk]

theorem linkApproach_neo_core (idx : Option String → Option ℕ)
    (db : NEODatabase) (i j : ℕ) :
    ((linkApproach idx db i).neos[j]?).map NearEarthObject.core =
      (db.neos[j]?).map NearEarthObject.core := by
  simp only [linkApproach]
  split
  · rfl
  · split
    · rfl
    · simp only [List.getElem?_modify]
      cases db.neos[j]? with
      | none => rfl
      | some neo => simp [NearEarthObject.core, apply_ite]

theorem linkApproach_approach_ne (idx : Option String → Option ℕ)
    (db : NEODatabase) (i : ℕ) {k : ℕ} (hk : i ≠ k) :
    (linkApproach idx db i).approaches[k]? = db.approaches[k]? := by
  simp only [linkApproach]
  split
  · rfl
  · split
    · rfl
    · simp [List.getElem?_set_ne hk]

theorem linkApproach_of_none (idx : Option String → Option ℕ)
    (db : NEODatabase) (i : ℕ) (h : db.approaches.get? i = Option.none) :
    linkApproach idx db i = db := by
  simp only [linkApproach, h]

theorem linkApproach_of_unresolved (idx : Option String → Option ℕ)
    (db : NEODatabase) (i : ℕ) (a : CloseApproach)
    (ha : db.approaches.get? i = some a) (hd : idx a._designation = Option.none) :
    linkApproach idx db i = db := by
  simp only [linkApproach, ha, hd]

theorem linkApproach_of_resolved (idx : Option String → Option ℕ)
    (db : NEODatabase) (i : ℕ) (a : CloseApproach) (j : ℕ)
    (ha : db.approaches.get? i = some a) (hd : idx a._designation = some j) :
    linkApproach idx db i =
      { neos := db.neos.modify
          (fun neo => { neo with approaches := neo.approaches ++ [i] }) j
        approaches := db.approaches.set i { a with neo := some j } } := by
  simp only [linkApproach, ha, hd]

theorem resolveDesig_linkApproach (idx : Option String → Option ℕ)
    (db : NEODatabase) (i k : ℕ) :
    resolveDesig idx (linkApproach idx db i) k = resolveDesig idx db k := by
  have h := linkApproach_approach_core idx db i k
  rw [resolveDesig, resolveDesig, List.get?_eq_getElem?, List.get?_eq_getElem?]
  cases h1 : (linkApproach idx db i).approaches[k]? with
  | none =>
    rw [h1] at h
    cases h2 : db.approaches[k]? with
    | none => rfl
    | some b => rw [h2] at h; simp at h
  | some a =>
    rw [h1] at h
    cases h2 : db.approaches[k]? with
    | none => rw [h2] at h; simp at h
    | some b =>
      rw [h2] at h
      simp [CloseApproach.core] at h
      simp [h.1]

/-! ### Behaviour of the whole linking loop -/

theorem linkAll_approaches_length (idx : Option String → Option ℕ)
    (db : NEODatabase) (L : List ℕ) :
    (linkAll idx db L).approaches.length = db.approaches.length := by
  induction L generalizing db with
  | nil => rfl
  | cons i L ih => rw [linkAll, ih, linkApproach_approaches_length]

theorem linkAll_neos_length (idx : Option String → Option ℕ)
    (db : NEODatabase) (L : List ℕ) :
    (linkAll idx db L).neos.length = db.neos.length := by
  induction L generalizing db with
  | nil => rfl
  | cons i L ih => rw [linkAll, ih, linkApproach_neos_length]

theorem linkAll_approach_core (idx : Option String → Option ℕ)
    (db : NEODatabase) (L : List ℕ) (k : ℕ) :
    ((linkAll idx db L).approaches[k]?).map CloseApproach.core =
      (db.approaches[k]?).map CloseApproach.core := by
  induction L generalizing db with
  | nil => rfl
  | cons i L ih => rw [linkAll, ih, linkApproach_approach_core]

theorem linkAll_neo_core (idx : Option String → Option ℕ)
    (db : NEODatabase) (L : List ℕ) (j : ℕ) :
    ((linkAll idx db L).neos[j]?).map NearEarthObject.core =
      (db.neos[j]?).map NearEarthObject.core := by
  induction L generalizing db with
  | nil => rfl
  | cons i L ih => rw [linkAll, ih, linkApproach_neo_core]

theorem linkAll_approach_not_mem (idx : Option String → Option ℕ)
    (db : NEODatabase) (L : List ℕ) {i : ℕ} (h : i ∉ L) :
    (linkAll idx db L).approaches[i]? = db.approaches[i]? := by
  induction L generalizing db with
  | nil => rfl
  | cons k L ih =>
    rw [linkAll]
    have hki : k ≠ i := fun he => h (he ▸ List.mem_cons_self _ _)
    rw [ih _ (fun hm => h (List.mem_cons_of_mem _ hm)),
      linkApproach_approach_ne idx db k hki]

theorem linkAll_approach_unresolved (idx : Option String → Option ℕ)
    (db : NEODatabase) (L : List ℕ) {i : ℕ} {a : CloseApproach}
    (ha : db.approaches[i]? = some a) (hd : idx a._designation = Option.none) :
    (linkAll idx db L).approaches[i]? = some a := by
  induction L generalizing db with
  | nil => exact ha
  | cons k L ih =>
    rw [linkAll]
    by_cases hk : k = i
    · subst hk
      rw [linkApproach_of_unresolved idx db k a (by rw [List.get?_eq_getElem?]; exact ha) hd]
      exact ih _ ha
    · have h1 : (linkApproach idx db k).approaches[i]? = some a := by
        rw [linkApproach_approach_ne idx db k hk]; exact ha
      exact ih _ h1

theorem linkAll_approach_resolved (idx : Option String → Option ℕ)
    (db : NEODatabase) (L : List ℕ) {i j : ℕ} {a : CloseApproach}
    (ha : db.approaches[i]? = some a) (hd : idx a._designation = some j)
    (hm : i ∈ L) :
    (linkAll idx db L).approaches[i]? = some { a with neo := some j } := by
  induction L generalizing db a with
  | nil => simp at hm
  | cons k L ih =>
    rw [linkAll]
    by_cases hk : k = i
    · subst hk
      have hlt : k < db.approaches.length := by
        by_contra hge
        rw [List.getElem?_eq_none (Nat.le_of_not_lt hge)] at ha
        exact Option.noConfusion ha
      have h1 : (linkApproach idx db k).approaches[k]? =
          some { a with neo := some j } := by
        rw [linkApproach_of_resolved idx db k a j (by rw [List.get?_eq_getElem?]; exact ha) hd]
        exact List.getElem?_set_eq_of_lt _ hlt
      by_cases hmem : k ∈ L
      · exact @ih _ { a with neo := some j } h1 hd hmem
      · rw [linkAll_approach_not_mem idx _ L hmem]
        exact h1
    · have h1 : (linkApproach idx db k).approaches[i]? = some a := by
        rw [linkApproach_approach_ne idx db k hk]; exact ha
      have hm' : i ∈ L := by
        rcases List.mem_cons.mp hm with he | hm'
        · exact absurd he.symm hk
        · exact hm'
      exact ih _ h1 hd hm'

theorem linkAll_neo_approaches (idx : Option String → Option ℕ)
    (db : NEODatabase) (L : List ℕ) {j : ℕ} {neo : NearEarthObject}
    (hj : db.neos[j]? = some neo) :
    (linkAll idx db L).neos[j]? =
      some { neo with
             approaches := neo.approaches ++
               L.filter (fun i => decide (resolveDesig idx db i = some j)) } := by
  induction L generalizing db neo with
  | nil =>
    obtain ⟨d, n, di, hz, ap⟩ := neo
    rw [linkAll, hj]
    simp
  | cons k L ih =>
    rw [linkAll]
    have hpred : (fun i => decide (resolveDesig idx (linkApproach idx db k) i = some j))
        = (fun i => decide (resolveDesig idx db i = some j)) :=
      funext fun m => by rw [resolveDesig_linkApproach idx db k m]
    cases hr : resolveDesig idx db k with
    | none =>
      have heq : linkApproach idx db k = db := by
        rw [resolveDesig] at hr
        cases ha : db.approaches.get? k with
        | none => exact linkApproach_of_none idx db k ha
        | some a =>
          rw [ha] at hr
          exact linkApproach_of_unresolved idx db k a ha hr
      rw [heq, ih _ hj, List.filter_cons]
      simp [hr]
    | some j2 =>
      rw [resolveDesig] at hr
      cases ha : db.approaches.get? k with
      | none => rw [ha] at hr; simp at hr
      | some a =>
        rw [ha] at hr
        have hrk : resolveDesig idx db k = some j2 := by
          rw [resolveDesig, ha]; exact hr
        by_cases hj2 : j2 = j
        · subst hj2
          have hdb' : (linkApproach idx db k).neos[j2]? =
              some { neo with approaches := neo.approaches ++ [k] } := by
            rw [linkApproach_of_resolved idx db k a j2 ha hr]
            simp only [List.getElem?_modify, hj]
            simp
          rw [ih _ hdb', hpred, List.filter_cons]
          simp [hrk, List.append_assoc]
        · have hdb' : (linkApproach idx db k).neos[j]? = some neo := by
            rw [linkApproach_of_resolved idx db k a j2 ha hr]
            simp only [List.getElem?_modify, hj]
            simp [hj2]
          rw [ih _ hdb', hpred, List.filter_cons]
          simp [hrk, hj2]

/-! ### Consequences for the constructed database -/

theorem neo_core_fields {x y : NearEarthObject} (h : x.core = y.core) :
    x.designation = y.designation ∧ x.name = y.name ∧
      x.diameter = y.diameter ∧ x.hazardous = y.hazardous := by
  rw [NearEarthObject.core, NearEarthObject.core] at h
  simpa using h

theorem approach_core_fields {x y : CloseApproach} (h : x.core = y.core) :
    x._designation = y._designation ∧ x.time = y.time ∧
      x.distance = y.distance ∧ x.velocity = y.velocity := by
  rw [CloseApproach.core, CloseApproach.core] at h
  simpa using h

theorem mkNEODatabase_neos_length (neos : List NearEarthObject)
    (approaches : List CloseApproach) :
    (mkNEODatabase neos approaches).neos.length = neos.length :=
  linkAll_neos_length _ _ _

theorem mkNEODatabase_approaches_length (neos : List NearEarthObject)
    (approaches : List CloseApproach) :
    (mkNEODatabase neos approaches).approaches.length = approaches.length :=
  linkAll_approaches_length _ _ _

theorem mkNEODatabase_neo_core (neos : List NearEarthObject)
    (approaches : List CloseApproach) (j : ℕ) :
    ((mkNEODatabase neos approaches).neos[j]?).map NearEarthObject.core =
      (neos[j]?).map NearEarthObject.core :=
  linkAll_neo_core _ _ _ j

theorem mkNEODatabase_approach_core (neos : List NearEarthObject)
    (approaches : List CloseApproach) (k : ℕ) :
    ((mkNEODatabase neos approaches).approaches[k]?).map CloseApproach.core =
      (approaches[k]?).map CloseApproach.core :=
  linkAll_approach_core _ _ _ k

/-- The designation dict over the post-linking arena agrees with the one
built in `__init__` from the input NEOs (linking never changes a
designation). -/
theorem neoDesignationIdx_mkNEODatabase (neos : List NearEarthObject)
    (approaches : List CloseApproach) (d : Option String) :
    neoDesignationIdx (mkNEODatabase neos approaches).neos d =
      neoDesignationIdx neos d := by
  apply dictFindIdx_congr
  intro k
  have h := mkNEODatabase_neo_core neos approaches k
  cases hx : (mkNEODatabase neos approaches).neos[k]? with
  | none =>
    rw [hx] at h
    cases hy : neos[k]? with
    | none => rfl
    | some y => rw [hy] at h; simp at h
  | some x =>
    rw [hx] at h
    cases hy : neos[k]? with
    | none => rw [hy] at h; simp at h
    | some y =>
      rw [hy] at h
      simp only [Option.map_some'] at h ⊢
      rw [(neo_core_fields (Option.some.inj h)).1]

/-- Same for the name dict. -/
theorem neoNameIdx_mkNEODatabase (neos : List NearEarthObject)
    (approaches : List CloseApproach) (n : Option String) :
    neoNameIdx (mkNEODatabase neos approaches).neos n = neoNameIdx neos n := by
  apply dictFindIdx_congr
  intro k
  have h := mkNEODatabase_neo_core neos approaches k
  cases hx : (mkNEODatabase neos approaches).neos[k]? with
  | none =>
    rw [hx] at h
    cases hy : neos[k]? with
    | none => rfl
    | some y => rw [hy] at h; simp at h
  | some x =>
    rw [hx] at h
    cases hy : neos[k]? with
    | none => rw [hy] at h; simp at h
    | some y =>
      rw [hy] at h
      simp only [Option.map_some'] at h ⊢
      rw [(neo_core_fields (Option.some.inj h)).2.1]

/-- Index-level consequence of pairwise-distinct designations. -/
theorem uniq_idx_of_pairwise {l : List NearEarthObject}
    (h : l.Pairwise (fun x y => x.designation ≠ y.designation))
    {j1 j2 : ℕ} {n1 n2 : NearEarthObject} (h1 : l[j1]? = some n1)
    (h2 : l[j2]? = some n2) (hd : n1.designation = n2.designation) : j1 = j2 := by
  obtain ⟨hl1, he1⟩ := List.getElem?_eq_some.mp h1
  obtain ⟨hl2, he2⟩ := List.getElem?_eq_some.mp h2
  rcases Nat.lt_trichotomy j1 j2 with hlt | heq | hgt
  · exact absurd (he1 ▸ he2 ▸ hd) (List.pairwise_iff_getElem.mp h j1 j2 hl1 hl2 hlt)
  · exact heq
  · exact absurd (he2 ▸ he1 ▸ hd.symm) (List.pairwise_iff_getElem.mp h j2 j1 hl2 hl1 hgt)

/-- Index-level consequence of pairwise-distinct truthy names. -/
theorem uniq_name_idx_of_pairwise {l : List NearEarthObject}
    (h : l.Pairwise (fun x y => nameTruthy x.name = true → x.name ≠ y.name))
    {j1 j2 : ℕ} {n1 n2 : NearEarthObject} (h1 : l[j1]? = some n1)
    (h2 : l[j2]? = some n2) (ht : nameTruthy n1.name = true)
    (hd : n1.name = n2.name) : j1 = j2 := by
  obtain ⟨hl1, he1⟩ := List.getElem?_eq_some.mp h1
  obtain ⟨hl2, he2⟩ := List.getElem?_eq_some.mp h2
  rcases Nat.lt_trichotomy j1 j2 with hlt | heq | hgt
  · exact absurd (he1 ▸ he2 ▸ hd)
      (List.pairwise_iff_getElem.mp h j1 j2 hl1 hl2 hlt (he1 ▸ ht))
  · exact heq
  · have ht2 : nameTruthy n2.name = true := by rw [← hd]; exact ht
    exact absurd (he2 ▸ he1 ▸ hd.symm)
      (List.pairwise_iff_getElem.mp h j2 j1 hl2 hl1 hgt (he2 ▸ ht2))

/-- With pairwise-distinct designations, the designation dict resolves the
designation of the NEO at index `j` to exactly `j`. -/
theorem neoDesignationIdx_eq_of_uniq {neos : List NearEarthObject}
    (huniq : neos.Pairwise (fun x y => x.designation ≠ y.designation))
    {j : ℕ} {neo : NearEarthObject} (hj : neos[j]? = some neo) :
    neoDesignationIdx neos neo.designation = some j := by
  cases hk : neoDesignationIdx neos neo.designation with
  | none => exact absurd hk (dictFindIdx_ne_none hj (by simp))
  | some k =>
    obtain ⟨x, hx, hpx⟩ := dictFindIdx_some hk
    simp only [decide_eq_true_eq] at hpx
    rw [uniq_idx_of_pairwise huniq hx hj hpx]

/-! ### Sample data for the concrete witnesses -/

def sampleNEOInfo : NEOInfo :=
  { designation := some "433", name := some "Eros"
    diameter := PyVal.float (.val 16), hazardous := PyVal.bool false }

def sampleNEO : NearEarthObject := mkNearEarthObject sampleNEOInfo

def sampleApproach : CloseApproach :=
  { _designation := some "433", time := TimeVal.none
    distance := PyVal.float (.val 1), velocity := PyVal.float (.val 5)
    neo := Option.none }

def namelessNEO : NearEarthObject :=
  mkNearEarthObject { designation := some "2020 AB", name := Option.none
                      diameter := PyVal.none, hazardous := PyVal.none }

def strayApproach : CloseApproach :=
  { _designation := some "999", time := TimeVal.none
    distance := PyVal.float (.val 2), velocity := PyVal.float (.val 30)
    neo := Option.none }

/-! ### The claims -/

/-- C2: for every CloseApproach in the input whose designation equals the
designation of some NEO of the input collection (designations pairwise
distinct as the data model requires, NEOs fresh from their constructor so
their approach lists start empty), after `NEODatabase` construction the
approach's `neo` attribute refers to that NEO (it holds its arena index) and
that NEO's `approaches` list contains the approach exactly once. -/
theorem construction_links_matching_approach
    (neos : List NearEarthObject) (approaches : List CloseApproach)
    {i j : ℕ} {a : CloseApproach} {neo : NearEarthObject}
    (hinit : ∀ x ∈ neos, x.approaches = [])
    (huniq : neos.Pairwise (fun x y => x.designation ≠ y.designation))
    (ha : approaches[i]? = some a) (hj : neos[j]? = some neo)
    (hd : a._designation = neo.designation) :
    ∃ a2 neo2,
      (mkNEODatabase neos approaches).approaches[i]? = some a2 ∧
      (mkNEODatabase neos approaches).neos[j]? = some neo2 ∧
      a2.neo = some j ∧ a2.core = a.core ∧ neo2.core = neo.core ∧
      neo2.approaches.count i = 1 := by
  have hres : neoDesignationIdx neos a._designation = some j := by
    rw [hd]; exact neoDesignationIdx_eq_of_uniq huniq hj
  have hiM : i < approaches.length := (List.getElem?_eq_some.mp ha).1
  have hmem : i ∈ List.range approaches.length := List.mem_range.mpr hiM
  have ha2 : (mkNEODatabase neos approaches).approaches[i]? =
      some { a with neo := some j } := by
    rw [mkNEODatabase]
    exact linkAll_approach_resolved _ _ _ ha hres hmem
  have happ : neo.approaches = [] := by
    obtain ⟨hlt, heq⟩ := List.getElem?_eq_some.mp hj
    exact hinit neo (heq ▸ List.getElem_mem hlt)
  have hresi : resolveDesig (neoDesignationIdx neos)
      { neos := neos, approaches := approaches } i = some j := by
    rw [resolveDesig, List.get?_eq_getElem?]
    show (approaches[i]?).bind _ = some j
    rw [ha]
    exact hres
  have hneo2 := linkAll_neo_approaches (neoDesignationIdx neos)
    { neos := neos, approaches := approaches } (List.range approaches.length) hj
  rw [happ] at hneo2
  set flt := List.filter (fun i2 => decide (resolveDesig (neoDesignationIdx neos) { neos := neos, approaches := approaches } i2 = some j)) (List.range approaches.length) with hflt
  refine ⟨{ a with neo := some j }, { neo with approaches := flt },
    ha2, ?_, rfl, rfl, rfl, ?_⟩
  · rw [mkNEODatabase]
    simpa using hneo2
  · show flt.count i = 1
    rw [hflt]
    apply List.count_eq_one_of_mem ((List.nodup_range _).filter _)
    exact List.mem_filter.mpr ⟨hmem, by simp [hresi]⟩

/-- Witness for C2 at a concrete database of one NEO and one matching
approach. -/
theorem construction_links_matching_approach_witness :
    ∃ a2 neo2,
      (mkNEODatabase [sampleNEO] [sampleApproach]).approaches[0]? = some a2 ∧
      (mkNEODatabase [sampleNEO] [sampleApproach]).neos[0]? = some neo2 ∧
      a2.neo = some 0 ∧ a2.core = sampleApproach.core ∧
      neo2.core = sampleNEO.core ∧ neo2.approaches.count 0 = 1 :=
  construction_links_matching_approach [sampleNEO] [sampleApproach]
    (by decide) (by decide) (by decide) (by decide) (by decide)

/-- The arena slot `j` survives construction with all fields but the
approach list unchanged. -/
theorem final_neo_at (neos : List NearEarthObject) (approaches : List CloseApproach)
    {j : ℕ} {neo : NearEarthObject} (hj : neos[j]? = some neo) :
    ∃ neo2, (mkNEODatabase neos approaches).neos[j]? = some neo2 ∧
      neo2.core = neo.core := by
  have h := mkNEODatabase_neo_core neos approaches j
  rw [hj] at h
  cases hx : (mkNEODatabase neos approaches).neos[j]? with
  | none => rw [hx] at h; simp at h
  | some x =>
    rw [hx] at h
    simp only [Option.map_some'] at h
    exact ⟨x, rfl, Option.some.inj h⟩

/-- C3: for every constructed database and every designation string `d`,
`get_neo_by_designation d` returns the (linked version of the) NEO whose
designation is `d` when one was present in the input NEO collection
(designations assumed unique), and returns `None` — a total lookup, nothing
is raised — when none was. -/
theorem get_neo_by_designation_correct
    (neos : List NearEarthObject) (approaches : List CloseApproach)
    (huniq : neos.Pairwise (fun x y => x.designation ≠ y.designation))
    (d : String) :
    (∀ j : ℕ, ∀ neo, neos[j]? = some neo → neo.designation = some d →
      ∃ neo2,
        (mkNEODatabase neos approaches).get_neo_by_designation (some d) = some neo2 ∧
        (mkNEODatabase neos approaches).neos[j]? = some neo2 ∧
        neo2.designation = some d) ∧
    ((∀ neo ∈ neos, neo.designation ≠ some d) →
      (mkNEODatabase neos approaches).get_neo_by_designation (some d) =
        Option.none) := by
  constructor
  · intro j neo hj hdes
    have hidx : neoDesignationIdx neos (some d) = some j := by
      rw [← hdes]
      exact neoDesignationIdx_eq_of_uniq huniq hj
    obtain ⟨neo2, hx, hcore⟩ := final_neo_at neos approaches hj
    refine ⟨neo2, ?_, hx, by rw [(neo_core_fields hcore).1, hdes]⟩
    rw [NEODatabase.get_neo_by_designation, neoDesignationIdx_mkNEODatabase, hidx]
    simpa [List.get?_eq_getElem?] using hx
  · intro hnone
    rw [NEODatabase.get_neo_by_designation, neoDesignationIdx_mkNEODatabase]
    have hn : neoDesignationIdx neos (some d) = Option.none :=
      dictFindIdx_eq_none (fun x hx => by simp [hnone x hx])
    rw [hn]
    rfl

/-- Witness for C3: both directions at a concrete one-NEO database. -/
theorem get_neo_by_designation_correct_witness :
    (∃ neo2,
      (mkNEODatabase [sampleNEO] [sampleApproach]).get_neo_by_designation
        (some "433") = some neo2 ∧
      (mkNEODatabase [sampleNEO] [sampleApproach]).neos[0]? = some neo2 ∧
      neo2.designation = some "433") ∧
    (mkNEODatabase [sampleNEO] [sampleApproach]).get_neo_by_designation
      (some "1036") = Option.none :=
  ⟨(get_neo_by_designation_correct [sampleNEO] [sampleApproach] (by decide)
      "433").1 0 sampleNEO (by decide) (by decide),
    (get_neo_by_designation_correct [sampleNEO] [sampleApproach] (by decide)
      "1036").2 (by decide)⟩

/-- The NEO whose present name is the empty string: a counterexample input
for C4. -/
def emptyNameNEO : NearEarthObject :=
  mkNearEarthObject { designation := some "E1", name := some ""
                      diameter := PyVal.none, hazardous := PyVal.none }

/-- C4 counterexample: the claim promises that an NEO with a present
(non-absent) name `n` is returned by `get_neo_by_name n`. The NEO below has
the present name `""`, sits in the database, and yet the lookup misses,
because `__init__` keys the name dict only on truthy (non-empty) names. -/
theorem get_neo_by_name_empty_name_counterexample :
    emptyNameNEO.name = some "" ∧
    (mkNEODatabase [emptyNameNEO] []).neos[0]? = some emptyNameNEO ∧
    (mkNEODatabase [emptyNameNEO] []).get_neo_by_name (some "") =
      Option.none := by
  decide

/-- C4 (amended): for every NEO of the input with a present AND NON-EMPTY
name `n` (truthy names assumed unique), `get_neo_by_name n` returns that
NEO; and for every NEO whose name is not truthy (absent or empty), no name
lookup with any argument ever resolves to that NEO's arena slot. -/
theorem get_neo_by_name_truthy_correct
    (neos : List NearEarthObject) (approaches : List CloseApproach)
    (huniq : neos.Pairwise (fun x y => nameTruthy x.name = true → x.name ≠ y.name)) :
    (∀ j : ℕ, ∀ neo s, neos[j]? = some neo → neo.name = some s → s ≠ "" →
      ∃ neo2,
        (mkNEODatabase neos approaches).get_neo_by_name (some s) = some neo2 ∧
        (mkNEODatabase neos approaches).neos[j]? = some neo2 ∧
        neo2.name = some s) ∧
    (∀ j : ℕ, ∀ neo, neos[j]? = some neo → nameTruthy neo.name = false →
      ∀ arg : Option String,
        neoNameIdx (mkNEODatabase neos approaches).neos arg ≠ some j) := by
  constructor
  · intro j neo s hj hname hs
    have ht : nameTruthy neo.name = true := by rw [hname]; simpa [nameTruthy]
    have hp : (nameTruthy neo.name && decide (neo.name = some s)) = true := by
      rw [ht, hname]; simp
    have hidx : neoNameIdx neos (some s) = some j := by
      cases hk : neoNameIdx neos (some s) with
      | none => exact absurd hk (dictFindIdx_ne_none hj hp)
      | some k =>
        obtain ⟨x, hx, hpx⟩ := dictFindIdx_some hk
        rw [Bool.and_eq_true, decide_eq_true_eq] at hpx
        rw [uniq_name_idx_of_pairwise huniq hx hj hpx.1
          (by rw [hpx.2, ← hname])]
    obtain ⟨neo2, hx, hcore⟩ := final_neo_at neos approaches hj
    refine ⟨neo2, ?_, hx, by rw [(neo_core_fields hcore).2.1, hname]⟩
    rw [NEODatabase.get_neo_by_name, neoNameIdx_mkNEODatabase, hidx]
    simpa [List.get?_eq_getElem?] using hx
  · intro j neo hj hfalse arg hcontra
    rw [neoNameIdx_mkNEODatabase] at hcontra
    obtain ⟨x, hx, hpx⟩ := dictFindIdx_some hcontra
    rw [hj] at hx
    rw [Bool.and_eq_true] at hpx
    rw [← Option.some.inj hx] at hpx
    rw [hfalse] at hpx
    exact Bool.false_ne_true hpx.1

/-- Witness for C4's amended statement: both parts at a concrete database
holding one named NEO and one NEO with an absent name. -/
theorem get_neo_by_name_truthy_correct_witness :
    (∃ neo2,
      (mkNEODatabase [sampleNEO, namelessNEO] []).get_neo_by_name
        (some "Eros") = some neo2 ∧
      (mkNEODatabase [sampleNEO, namelessNEO] []).neos[0]? = some neo2 ∧
      neo2.name = some "Eros") ∧
    neoNameIdx (mkNEODatabase [sampleNEO, namelessNEO] []).neos
      (some "Eros") ≠ some 1 :=
  ⟨(get_neo_by_name_truthy_correct [sampleNEO, namelessNEO] [] (by decide)).1
      0 sampleNEO "Eros" (by decide) (by decide) (by decide),
    (get_neo_by_name_truthy_correct [sampleNEO, namelessNEO] [] (by decide)).2
      1 namelessNEO (by decide) (by decide) (some "Eros")⟩

/-- C5: an unfiltered query yields the database's approach arena itself —
same cardinality as the input collection and, slot by slot, the very
records handed to the constructor (identical in every field the
constructor set; only the `neo` back-reference may have been filled in by
linking, which is the in-place mutation of those same objects). -/
theorem query_no_filters_yields_all_in_order
    (neos : List NearEarthObject) (approaches : List CloseApproach) :
    (mkNEODatabase neos approaches).query [] =
      (mkNEODatabase neos approaches).approaches ∧
    ((mkNEODatabase neos approaches).query []).length = approaches.length ∧
    (∀ i : ℕ, (((mkNEODatabase neos approaches).query [])[i]?).map
      CloseApproach.core = (approaches[i]?).map CloseApproach.core) :=
  ⟨rfl, mkNEODatabase_approaches_length neos approaches,
    fun i => mkNEODatabase_approach_core neos approaches i⟩

/-- C6: an approach whose designation matches no input NEO is left entirely
untouched by construction — its `neo` stays absent and no error occurs —
its index is in no NEO's approach list, and it still shows up (at its
original slot) in an unfiltered query. -/
theorem unmatched_approach_retained_unlinked
    (neos : List NearEarthObject) (approaches : List CloseApproach)
    {i : ℕ} {a : CloseApproach}
    (hinit : ∀ x ∈ neos, x.approaches = [])
    (ha : approaches[i]? = some a) (hneo : a.neo = Option.none)
    (hnomatch : ∀ x ∈ neos, x.designation ≠ a._designation) :
    ((mkNEODatabase neos approaches).approaches[i]? = some a ∧
      a.neo = Option.none) ∧
    (∀ j : ℕ, ∀ neo2, (mkNEODatabase neos approaches).neos[j]? = some neo2 →
      i ∉ neo2.approaches) ∧
    ((mkNEODatabase neos approaches).query [])[i]? = some a := by
  have hidx : neoDesignationIdx neos a._designation = Option.none :=
    dictFindIdx_eq_none (fun x hx => by simp [hnomatch x hx])
  have hkeep : (mkNEODatabase neos approaches).approaches[i]? = some a := by
    rw [mkNEODatabase]
    exact linkAll_approach_unresolved _ _ _ ha hidx
  refine ⟨⟨hkeep, hneo⟩, ?_, hkeep⟩
  intro j neo2 hj2 hmem
  cases hj : neos[j]? with
  | none =>
    have h := mkNEODatabase_neo_core neos approaches j
    rw [hj, hj2] at h
    simp at h
  | some neo =>
    have hneo2 := linkAll_neo_approaches (neoDesignationIdx neos)
      { neos := neos, approaches := approaches } (List.range approaches.length) hj
    rw [mkNEODatabase] at hj2
    rw [hj2] at hneo2
    have hempty : neo.approaches = [] := by
      obtain ⟨hlt, heq⟩ := List.getElem?_eq_some.mp hj
      exact hinit neo (heq ▸ List.getElem_mem hlt)
    rw [hempty] at hneo2
    have happmem : i ∈ List.filter
        (fun i2 => decide (resolveDesig (neoDesignationIdx neos)
          { neos := neos, approaches := approaches } i2 = some j))
        (List.range approaches.length) := by
      have he2 := Option.some.inj hneo2
      rw [he2] at hmem
      simpa using hmem
    have hpred := (List.mem_filter.mp happmem).2
    rw [decide_eq_true_eq] at hpred
    rw [resolveDesig, List.get?_eq_getElem?] at hpred
    revert hpred
    show (approaches[i]?).bind _ = some j → False
    rw [ha]
    show neoDesignationIdx neos a._designation = some j → False
    rw [hidx]
    exact fun hc => Option.noConfusion hc

/-- Witness for C6 at a database of one NEO and one stray approach (foreign
key `"999"`, matching nothing). -/
theorem unmatched_approach_retained_unlinked_witness :
    ((mkNEODatabase [sampleNEO] [strayApproach]).approaches[0]? =
        some strayApproach ∧
      strayApproach.neo = Option.none) ∧
    (∀ j : ℕ, ∀ neo2,
      (mkNEODatabase [sampleNEO] [strayApproach]).neos[j]? = some neo2 →
      0 ∉ neo2.approaches) ∧
    ((mkNEODatabase [sampleNEO] [strayApproach]).query [])[0]? =
      some strayApproach :=
  unmatched_approach_retained_unlinked [sampleNEO] [strayApproach]
    (by decide) (by decide) (by decide) (by decide)

/-- C1 (the code as written): `NEODatabase.query` is the placeholder loop
`for approach in self._approaches: yield approach`, so even a
never-satisfied filter still yields every stored approach — here a
one-approach database queried with the constantly-false filter yields that
approach instead of the empty sequence the specification requires. -/
theorem query_ignores_filters_on_concrete_input :
    (mkNEODatabase [sampleNEO] [sampleApproach]).query [fun _ => false] =
      [{ sampleApproach with neo := some 0 }] ∧
    (fun (_ : CloseApproach) => false) { sampleApproach with neo := some 0 } =
      false := by
  exact ⟨by decide, rfl⟩

def sampleApproachInfo : ApproachInfo :=
  { designation := some "433", time := some "2020-Jan-01 00:00"
    distance := some (PyVal.float (.val 1))
    velocity := some (PyVal.float (.val 5)), neo := Option.none }

/-- The record `mkCloseApproach sampleApproachInfo` succeeds with. -/
def sampleConstructedApproach : CloseApproach :=
  { _designation := some "433", time := TimeVal.dt ⟨"2020-Jan-01 00:00"⟩
    distance := PyVal.float (.val 1), velocity := PyVal.float (.val 5)
    neo := Option.none }

def badDistanceApproachInfo : ApproachInfo :=
  { designation := some "433", time := Option.none
    distance := some (PyVal.str "oops")
    velocity := some (PyVal.float (.val 5)), neo := Option.none }

def noDiameterNEOInfo : NEOInfo :=
  { designation := some "2010 XY", name := Option.none
    diameter := PyVal.none, hazardous := PyVal.none }

def zeroDiameterNEOInfo : NEOInfo :=
  { designation := some "2011 ZZ", name := Option.none
    diameter := PyVal.float (.val 0), hazardous := PyVal.none }

/-- C7: every successfully constructed `CloseApproach` stores floats (the
NaN sentinel exactly when the field was absent) for `distance` and
`velocity`; supplying a non-float for either makes the constructor itself
fail (an assertion error at construction time, not at query time). -/
theorem close_approach_float_invariant (info : ApproachInfo) :
    (∀ ca, mkCloseApproach info = Except.ok ca →
      ca.distance.isFloat = true ∧ ca.velocity.isFloat = true ∧
      (info.distance = Option.none → ca.distance = PyVal.float PFloat.nan) ∧
      (info.velocity = Option.none → ca.velocity = PyVal.float PFloat.nan)) ∧
    (((∃ v, info.distance = some v ∧ v.isFloat = false) ∨
      (∃ v, info.velocity = some v ∧ v.isFloat = false)) →
      ∃ e, mkCloseApproach info = Except.error e) := by
  constructor
  · intro ca hok
    rw [mkCloseApproach] at hok
    by_cases hd : (info.distance.getD (PyVal.float PFloat.nan)).isFloat
    · by_cases hv : (info.velocity.getD (PyVal.float PFloat.nan)).isFloat
      · simp only [hd, hv, Bool.not_true, Bool.false_eq_true, if_false,
          Except.ok.injEq] at hok
        rw [← hok]
        refine ⟨hd, hv, ?_, ?_⟩
        · intro h0; rw [h0]; rfl
        · intro h0; rw [h0]; rfl
      · simp [hd, hv] at hok
    · simp [hd] at hok
  · intro hbad
    rw [mkCloseApproach]
    rcases hbad with ⟨v, hv, hvf⟩ | ⟨v, hv, hvf⟩
    · exact ⟨"Distance must be a float object", by simp [hv, hvf]⟩
    · by_cases hd : (info.distance.getD (PyVal.float PFloat.nan)).isFloat
      · exact ⟨"Velocity must be a float object", by simp [hd, hv, hvf]⟩
      · exact ⟨"Distance must be a float object", by simp [hd]⟩

/-- Witness for C7: a well-typed construction stores floats, and a string
distance aborts construction. -/
theorem close_approach_float_invariant_witness :
    sampleConstructedApproach.distance.isFloat = true ∧
    sampleConstructedApproach.velocity.isFloat = true ∧
    (∃ e, mkCloseApproach badDistanceApproachInfo = Except.error e) :=
  ⟨((close_approach_float_invariant sampleApproachInfo).1
      sampleConstructedApproach (by rfl)).1,
    ((close_approach_float_invariant sampleApproachInfo).1
      sampleConstructedApproach (by rfl)).2.1,
    (close_approach_float_invariant badDistanceApproachInfo).2
      (Or.inl ⟨PyVal.str "oops", rfl, rfl⟩)⟩

/-- C8: an NEO constructed without a diameter field stores the NaN
sentinel, which differs from every actual numeric diameter — in particular
it is not zero. -/
theorem missing_diameter_is_nan_sentinel (info : NEOInfo)
    (h : info.diameter = PyVal.none) :
    (mkNearEarthObject info).diameter = PyVal.float PFloat.nan ∧
    ∀ q : ℚ, (mkNearEarthObject info).diameter ≠ PyVal.float (.val q) := by
  have hnan : (mkNearEarthObject info).diameter = PyVal.float PFloat.nan := by
    rw [mkNearEarthObject]
    simp [h, PyVal.truthy]
  refine ⟨hnan, fun q hq => ?_⟩
  rw [hnan] at hq
  exact PFloat.noConfusion (PyVal.float.inj hq)

/-- Witness for C8, with the sentinel compared against the diameter 0. -/
theorem missing_diameter_is_nan_sentinel_witness :
    (mkNearEarthObject noDiameterNEOInfo).diameter = PyVal.float PFloat.nan ∧
    (mkNearEarthObject noDiameterNEOInfo).diameter ≠ PyVal.float (.val 0) :=
  ⟨(missing_diameter_is_nan_sentinel noDiameterNEOInfo rfl).1,
    (missing_diameter_is_nan_sentinel noDiameterNEOInfo rfl).2 0⟩

/-- C9: two `query` calls on the same database with equivalent filter
collections (same conjunction on every record) have identical contents —
in this embedding each call denotes the same freshly produced list, never
a partially-consumed iterator. (The code satisfies this for any two filter
collections, equivalent or not, since the placeholder ignores them.) -/
theorem query_deterministic_for_equivalent_filters
    (neos : List NearEarthObject) (approaches : List CloseApproach)
    (fs1 fs2 : List (CloseApproach → Bool))
    (hequiv : ∀ ca : CloseApproach,
      fs1.all (fun f => f ca) = fs2.all (fun f => f ca)) :
    (mkNEODatabase neos approaches).query fs1 =
      (mkNEODatabase neos approaches).query fs2 := rfl

/-- Witness for C9 with the equivalent filter collections
`[fun _ => true]` and `[]`. -/
theorem query_deterministic_for_equivalent_filters_witness :
    (mkNEODatabase [sampleNEO] [sampleApproach]).query [fun _ => true] =
      (mkNEODatabase [sampleNEO] [sampleApproach]).query [] :=
  query_deterministic_for_equivalent_filters [sampleNEO] [sampleApproach]
    [fun _ => true] [] (fun _ => rfl)

/-- C10 (implicit in `NearEarthObject.__init__`): any falsy diameter —
`None`, `0`, `0.0`, `False`, `""` — is replaced by the NaN sentinel, so a
zero diameter (int or float) can never be stored on a constructed NEO. -/
theorem falsy_diameter_replaced_by_nan (info : NEOInfo) :
    (info.diameter.truthy = false →
      (mkNearEarthObject info).diameter = PyVal.float PFloat.nan) ∧
    (mkNearEarthObject info).diameter ≠ PyVal.float (.val 0) ∧
    (mkNearEarthObject info).diameter ≠ PyVal.int 0 := by
  refine ⟨fun h => by rw [mkNearEarthObject]; simp [h], ?_, ?_⟩
  · rw [mkNearEarthObject]
    by_cases h : info.diameter.truthy
    · simp only [h, if_true]
      intro hc
      rw [hc] at h
      simp [PyVal.truthy] at h
    · simp [h]
  · rw [mkNearEarthObject]
    by_cases h : info.diameter.truthy
    · simp only [h, if_true]
      intro hc
      rw [hc] at h
      simp [PyVal.truthy] at h
    · simp [h]

/-- Witness for C10 at the legitimately supplied diameter `0.0`. -/
theorem falsy_diameter_replaced_by_nan_witness :
    (mkNearEarthObject zeroDiameterNEOInfo).diameter = PyVal.float PFloat.nan ∧
    (mkNearEarthObject zeroDiameterNEOInfo).diameter ≠ PyVal.float (.val 0) :=
  ⟨(falsy_diameter_replaced_by_nan zeroDiameterNEOInfo).1 (by decide),
    (falsy_diameter_replaced_by_nan zeroDiameterNEOInfo).2.1⟩

end NEO
